import Mathlib

/-!
Verification development for `datadog_checks/postgres/connections.py`
(`MultiDatabaseConnectionPool` and its helpers).

The Python module is embedded shallowly:

* `psycopg` connections become the `Conn` record; its `closed` / `broken`
  fields mirror `db.closed` / `db.broken`, and `closeFails` records whether
  the underlying `close()` call raises when invoked.
* `datetime.datetime.now()` values are abstract `Int` instants supplied
  explicitly (one field per `now()` call site); durations (`ttl_ms`, the
  admission timeout) are measured on the same abstract timeline.
* The registry `self._conns` (a Python `dict`, ordered, unique keys) is an
  association list `Registry`; `setItem` is dict assignment (replace in
  place, else append) and `eraseKey` is `dict.pop`.
* Fallible calls (`connect_fn`, `startup_fn`, `db.close`) are modelled by
  explicit outcomes carried in an environment record; exceptions become the
  `PyErr` inductive and results an explicit result inductive.
-/

namespace ConnPool

/-- Model of a `psycopg.Connection` handle: `closed`/`broken` mirror the
attributes the pool consults, `closeFails` says whether `close()` raises. -/
structure Conn where
  id : Nat
  closed : Bool
  broken : Bool
  closeFails : Bool
deriving DecidableEq, Repr

/-- The `ConnectionInfo` record as constructed by `_get_connection_raw` (the fields the
pool actually supplies).  The source class declares one further parameter,
`thread`, that no call site ever passes and whose type hint names an
unimported `threading` module; that discrepancy is modelled separately by
the binding-level definitions near the end of this file. -/
structure ConnectionInfo where
  connection : Conn
  deadline : Int
  active : Bool
  last_accessed : Int
  persistent : Bool
deriving DecidableEq, Repr

/-- The `MultiDatabaseConnectionPool.Stats` counters, four monotone values. -/
structure Stats where
  connection_opened : Nat
  connection_pruned : Nat
  connection_closed : Nat
  connection_closed_failed : Nat
deriving DecidableEq, Repr

/-- The registry `self._conns : Dict[str, ConnectionInfo]` as an ordered
association list. -/
abbrev Registry := List (String × ConnectionInfo)

/-- Dict lookup: first (and, under `NodupKeys`, only) binding of a key. -/
def lookupConn : Registry → String → Option ConnectionInfo
  | [], _ => none
  | (k', v) :: rest, k => if k' = k then some v else lookupConn rest k

/-- Removal effect of `dict.pop(k, None)`: drop every binding of `k`
(a Python dict holds at most one). -/
def eraseKey : Registry → String → Registry
  | [], _ => []
  | (k', v) :: rest, k =>
    if k' = k then eraseKey rest k else (k', v) :: eraseKey rest k

/-- Dict assignment `d[k] = v`: replace in place if present, else append. -/
def setItem : Registry → String → ConnectionInfo → Registry
  | [], k, v => [(k, v)]
  | (k', v') :: rest, k, v =>
    if k' = k then (k, v) :: rest else (k', v') :: setItem rest k v

def keysOf (r : Registry) : List String := r.map Prod.fst

/-- The dict invariant: each key bound at most once. -/
def NodupKeys (r : Registry) : Prop := (keysOf r).Nodup

instance (r : Registry) : Decidable (NodupKeys r) := by
  unfold NodupKeys; infer_instance

/-- The pool state the claims are about: the registry plus the counters. -/
structure PoolState where
  conns : Registry
  stats : Stats
deriving DecidableEq, Repr

/-- Model of `_terminate_connection_unsafe(dbname)`: pop the record if present and
close its connection; a close failure is swallowed, counted and reported
as `false`. -/
def terminateConnectionUnsafe (st : PoolState) (dbname : String) : Bool × PoolState :=
  match lookupConn st.conns dbname with
  | none => (true, st)
  | some ci =>
    let conns' := eraseKey st.conns dbname
    if ci.connection.closeFails then
      (false, { conns := conns',
                stats := { st.stats with
                  connection_closed_failed := st.stats.connection_closed_failed + 1 } })
    else
      (true, { conns := conns',
               stats := { st.stats with
                 connection_closed := st.stats.connection_closed + 1 } })

/-- The prune test from `prune_connections`:
`conn.deadline < now and not conn.active and not conn.persistent`. -/
def pruneEligible (now : Int) (ci : ConnectionInfo) : Bool :=
  decide (ci.deadline < now) && !ci.active && !ci.persistent

/-- One iteration of the `for conn_name, conn in list(self._conns.items())`
loop body of `prune_connections`. -/
def pruneStep (now : Int) (st : PoolState) (item : String × ConnectionInfo) : PoolState :=
  if pruneEligible now item.2 then
    let st1 : PoolState :=
      { st with stats := { st.stats with
          connection_pruned := st.stats.connection_pruned + 1 } }
    (terminateConnectionUnsafe st1 item.1).2
  else st

/-- Model of `prune_connections()`: iterate the loop body over a snapshot of the
registry taken at entry, with `now` the single `datetime.now()` it reads. -/
def pruneConnections (now : Int) (st : PoolState) : PoolState :=
  st.conns.foldl (pruneStep now) st

/-- Model of `close_all_connections()`: terminate every key in a snapshot of the
registry, returning `false` as soon as any single close failed. -/
def close_all_connections (st : PoolState) : Bool × PoolState :=
  (keysOf st.conns).foldl
    (fun acc dbname =>
      let r := terminateConnectionUnsafe acc.2 dbname
      (acc.1 && r.1, r.2))
    (true, st)

/-- The eviction candidate test from `evict_lru`:
`not conn_info.active and not conn_info.persistent`. -/
def evictCandidate (it : String × ConnectionInfo) : Bool :=
  !it.2.active && !it.2.persistent

/-- The sort key of `evict_lru`: `lambda i: i[1].last_accessed`. -/
def leLastAccessed (a b : String × ConnectionInfo) : Bool :=
  decide (a.2.last_accessed ≤ b.2.last_accessed)

/-- Stable insertion into a list sorted by `last_accessed`. -/
def insertByLA (x : String × ConnectionInfo) :
    List (String × ConnectionInfo) → List (String × ConnectionInfo)
  | [] => [x]
  | y :: ys => if leLastAccessed x y then x :: y :: ys else y :: insertByLA x ys

/-- Python's `sorted(..., key=lambda i: i[1].last_accessed)`: a stable sort
by ascending `last_accessed` (insertion sort — stable, as Python's is). -/
def sortByLastAccessed : List (String × ConnectionInfo) → List (String × ConnectionInfo)
  | [] => []
  | x :: xs => insertByLA x (sortByLastAccessed xs)

/-- Model of `evict_lru()`: sort the registry items by `last_accessed`, terminating the
first inactive non-persistent one and return its name, else return `None`
leaving the state untouched. -/
def evict_lru (st : PoolState) : Option String × PoolState :=
  let sorted_conns := sortByLastAccessed st.conns
  match sorted_conns.find? evictCandidate with
  | some it => (some it.1, (terminateConnectionUnsafe st it.1).2)
  | none => (none, st)

/-- Python exceptions that reach the pool code. -/
inductive PyErr
  | nameError (n : String)
  | typeError (msg : String)
  | interruptedError
  | valueError (msg : String)
  | operationalError (msg : String)
deriving DecidableEq, Repr

/-- The error `ConnectionPoolFullError(size, timeout)` as raised by the admission
loop: `size` is `self.max_conns` (an `int` there) and `timeout` the value
the loop compared against. -/
structure ConnectionPoolFullError where
  size : Nat
  timeout : Int
deriving DecidableEq, Repr

/-- One iteration of the admission wait loop consumes two `now()` readings:
the one inside `prune_connections` and the one of the timeout check. -/
structure AdmissionTick where
  pruneNow : Int
  checkNow : Int
deriving DecidableEq, Repr

/-- Outcome of the admission wait loop of `_get_connection_raw`. -/
inductive AdmissionResult
  | ok (st : PoolState)
  | full (e : ConnectionPoolFullError) (st : PoolState)
  | running (st : PoolState)
deriving DecidableEq, Repr

/-- The `while len(self._conns) >= self.max_conns` wait loop: each tick
prunes, evicts once, then checks whether the wall-clock time elapsed since
`start` exceeds `timeout` and raises `ConnectionPoolFullError` if so.  When
the supplied clock trace runs out while the loop would keep spinning the
model answers `running`. -/
def admissionLoop (maxConns : Nat) (timeout : Option Int) (start : Int) :
    List AdmissionTick → PoolState → AdmissionResult
  | ticks, st =>
    if st.conns.length < maxConns then .ok st
    else
      match ticks with
      | [] => .running st
      | t :: rest =>
        let st1 := pruneConnections t.pruneNow st
        let st2 := (evict_lru st1).2
        match timeout with
        | some tmo =>
          if t.checkNow - start > tmo then .full ⟨maxConns, tmo⟩ st2
          else admissionLoop maxConns timeout start rest st2
        | none => admissionLoop maxConns timeout start rest st2

/-- Guard `if self.max_conns is not None:` around the wait loop: with no cap configured the
admission phase is skipped entirely. -/
def admissionPhase (maxConns : Option Nat) (timeout : Option Int) (start : Int)
    (ticks : List AdmissionTick) (st : PoolState) : AdmissionResult :=
  match maxConns with
  | some m => admissionLoop m timeout start ticks st
  | none => .ok st

/-- Environment a single `_get_connection_raw` call draws on: the configured
default timeout and the outcomes of the external calls it may make. -/
structure RawEnv where
  connectionTimeout : Option Int
  connectResult : Except PyErr Conn
  startupResult : Except PyErr Unit
deriving Repr

/-- The `datetime.now()` readings a single `_get_connection_raw` call makes,
in source order. -/
structure RawClock where
  start : Int
  pruneEntryNow : Int
  ticks : List AdmissionTick
  deadlineNow : Int
  lastAccessedNow : Int
deriving Repr

/-- The caller-supplied arguments of `_get_connection_raw`. -/
structure RawParams where
  dbname : String
  ttl_ms : Int
  timeout : Option Int
  hasStartupFn : Bool
  persistent : Bool
deriving Repr

/-- Defaulting step `if not timeout: timeout = self._config.connection_timeout` — Python
truthiness: both `None` and `0` fall back to the configured default. -/
def effectiveTimeout (env : RawEnv) (t : Option Int) : Option Int :=
  match t with
  | none => env.connectionTimeout
  | some v => if v = 0 then env.connectionTimeout else some v

/-- Observable external calls made during `_get_connection_raw`. -/
inductive RawEvent
  | factoryCall
  | startupCall
deriving DecidableEq, Repr

/-- Outcome of `_get_connection_raw`: a returned connection, a propagated
exception, the pool-full error, or (model artefact) a wait loop that had
not resolved when the supplied clock trace ended.  Each outcome carries the
pool state at that moment and the external calls made on the way. -/
inductive RawResult
  | ok (db : Conn) (st : PoolState) (events : List RawEvent)
  | err (e : PyErr) (st : PoolState) (events : List RawEvent)
  | full (e : ConnectionPoolFullError) (st : PoolState)
  | running (st : PoolState)
deriving DecidableEq, Repr

/-- The pool state carried by a `_get_connection_raw` outcome. -/
def rawStateOf : RawResult → PoolState
  | .ok _ st _ => st
  | .err _ st _ => st
  | .full _ st => st
  | .running st => st

/-- The test `db is None or db.closed or db.broken` on the popped record. -/
def staleConn : Option ConnectionInfo → Bool
  | none => true
  | some ci => ci.connection.closed || ci.connection.broken

/-- The shared tail of `_get_connection_raw`: compute the fresh deadline,
insert the record with `active=True` and a fresh `last_accessed`, return
the connection. -/
def finishInsert (db : Conn) (events : List RawEvent) (p : RawParams)
    (clock : RawClock) (st : PoolState) (persistent : Bool) : RawResult :=
  let deadline := clock.deadlineNow + p.ttl_ms
  let ci : ConnectionInfo :=
    { connection := db, deadline := deadline, active := true,
      last_accessed := clock.lastAccessedNow, persistent := persistent }
  .ok db { st with conns := setItem st.conns p.dbname ci } events

/-- The new-connection branch of `_get_connection_raw`: run admission when a
cap is configured, count the open, call the factory and, when supplied, the
startup hook; an exception from either propagates with the state as is. -/
def openNewConnection (maxConns : Option Nat) (env : RawEnv) (clock : RawClock)
    (p : RawParams) (st : PoolState) : RawResult :=
  match admissionPhase maxConns (effectiveTimeout env p.timeout) clock.start clock.ticks st with
  | .full e st' => .full e st'
  | .running st' => .running st'
  | .ok st2 =>
    let st3 : PoolState :=
      { st2 with stats := { st2.stats with
          connection_opened := st2.stats.connection_opened + 1 } }
    match env.connectResult with
    | .error e => .err e st3 [.factoryCall]
    | .ok db2 =>
      if p.hasStartupFn then
        match env.startupResult with
        | .error e => .err e st3 [.factoryCall, .startupCall]
        | .ok _ => finishInsert db2 [.factoryCall, .startupCall] p clock st3 p.persistent
      else finishInsert db2 [.factoryCall] p clock st3 p.persistent

/-- Model of `_get_connection_raw(dbname, ttl_ms, timeout, startup_fn, persistent)`:
prune, pop any record for the key, reuse its connection when live and
healthy (retaining its `persistent` flag), otherwise open a new one. -/
def getConnectionRaw (maxConns : Option Nat) (env : RawEnv) (clock : RawClock)
    (p : RawParams) (st : PoolState) : RawResult :=
  let stP := pruneConnections clock.pruneEntryNow st
  let conn := lookupConn stP.conns p.dbname
  let stPop : PoolState := { stP with conns := eraseKey stP.conns p.dbname }
  match conn with
  | none => openNewConnection maxConns env clock p stPop
  | some ci =>
    if ci.connection.closed || ci.connection.broken then
      openNewConnection maxConns env clock p stPop
    else
      finishInsert ci.connection [] p clock stPop ci.persistent

/-- How the body of a `with pool.get_connection(...)` block ended. -/
inductive BodyOutcome
  | normal
  | interrupted
  | raised (e : PyErr)
deriving DecidableEq, Repr

/-- What the scope exit of `get_connection` did with the leased record. -/
inductive ExitDisposition
  | markedIdle
  | removedBroken
  | removedCancelled
  | propagated (e : PyErr)
deriving DecidableEq, Repr

/-- Assignment `self._conns[dbname].active = False`, with the `KeyError` of a record
already removed by a concurrent prune/evict swallowed. -/
def setActiveFalse (st : PoolState) (dbname : String) : PoolState :=
  match lookupConn st.conns dbname with
  | some ci => { st with conns := setItem st.conns dbname { ci with active := false } }
  | none => st

/-- The scope-exit logic of `get_connection` (its `try/except
InterruptedError/else` around `yield db`), as a function of how the body
ended and whether the connection reports itself broken at exit:

* `InterruptedError` from the body is caught, the record is terminated and
  the error re-raised;
* any other exception matches no `except` clause and skips the `else`
  block, so it propagates with the pool state untouched (the record keeps
  `active=True`);
* on a normal exit the `else` block runs (its
  `if not interrupted_error_occurred` test is always true there, the flag
  being set only in the `except` clause): a broken connection is
  terminated, otherwise the record is marked inactive. -/
def getConnectionScopeExit (dbname : String) (dbBroken : Bool)
    (outcome : BodyOutcome) (st : PoolState) : ExitDisposition × PoolState :=
  match outcome with
  | .interrupted => (.removedCancelled, (terminateConnectionUnsafe st dbname).2)
  | .raised e => (.propagated e, st)
  | .normal =>
    if dbBroken then (.removedBroken, (terminateConnectionUnsafe st dbname).2)
    else (.markedIdle, setActiveFalse st dbname)

/-! Binding-level model of the module, for the defects that fire before any
pool logic runs: Python resolves each name against the local scope and the
module globals, raising `NameError` when neither binds it, and checks a
call's keywords against the callee's parameters, raising `TypeError` when a
parameter without a default is not supplied. -/

/-- Names the module's `import` statements bind at module scope
(`import contextlib/datetime/inspect/time`, `from typing import Callable,
Dict`, `import psycopg`, `from datadog_checks.base import AgentCheck`). -/
def moduleImportedNames : List String :=
  ["contextlib", "datetime", "inspect", "time", "Callable", "Dict",
   "psycopg", "AgentCheck"]

/-- Names bound at module scope by the module's own definitions. -/
def moduleDefinedNames : List String :=
  ["ConnectionPoolFullError", "ConnectionInfo", "MultiDatabaseConnectionPool"]

def moduleScopeNames : List String := moduleImportedNames ++ moduleDefinedNames

/-- Names bound in the scope of `get_connection` when execution reaches the
`self._get_connection_raw(...)` call: its parameters and the one local
assigned before that line (`db` is only assigned by that statement itself). -/
def getConnectionLocalNames : List String :=
  ["self", "dbname", "ttl_ms", "timeout", "persistent", "interrupted_error_occurred"]

/-- Python name resolution at a use site. -/
def resolveName (locals : List String) (n : String) : Except PyErr Unit :=
  if n ∈ locals ∨ n ∈ moduleScopeNames then .ok () else .error (.nameError n)

/-- Resolve a list of names left to right, stopping at the first failure —
exactly what evaluating a call's argument list does. -/
def resolveAll (locals : List String) : List String → Except PyErr Unit
  | [] => .ok ()
  | n :: rest =>
    match resolveName locals n with
    | .ok _ => resolveAll locals rest
    | .error e => .error e

/-- The names `get_connection` passes to `self._get_connection_raw`, in
source order: `dbname, ttl_ms, timeout, startup_fn, persistent`. -/
def rawCallArgumentNames : List String :=
  ["dbname", "ttl_ms", "timeout", "startup_fn", "persistent"]

/-- Evaluating the argument list of the `self._get_connection_raw(...)`
call — the first statement of `get_connection` that can fail, executed
before anything is yielded. -/
def getConnectionFirstStep : Except PyErr Unit :=
  resolveAll getConnectionLocalNames rawCallArgumentNames

/-- A parameter of a Python function signature. -/
structure PyParam where
  name : String
  hasDefault : Bool
deriving DecidableEq, Repr

/-- The parameters of `ConnectionInfo.__init__` after `self`, none of which
has a default. -/
def connectionInfoInitParams : List PyParam :=
  [⟨"connection", false⟩, ⟨"deadline", false⟩, ⟨"active", false⟩,
   ⟨"last_accessed", false⟩, ⟨"thread", false⟩, ⟨"persistent", false⟩]

/-- The keywords `_get_connection_raw` passes when it constructs
`ConnectionInfo`. -/
def connectionInfoCallKeywords : List String :=
  ["connection", "deadline", "active", "last_accessed", "persistent"]

/-- Required parameters of `ConnectionInfo.__init__` the construction in
`_get_connection_raw` does not supply; a `TypeError` is raised when this
list is nonempty. -/
def connectionInfoMissingArgs : List String :=
  (connectionInfoInitParams.filter
    (fun p => !p.hasDefault && !(connectionInfoCallKeywords.contains p.name))).map
    (fun p => p.name)

/-- The module-level names referenced by the type hints in the signature of
`ConnectionInfo.__init__` (`psycopg.Connection`, `threading.Thread`), which
Python evaluates when the class body is executed. -/
def connectionInfoHintRootNames : List String := ["psycopg", "threading"]

/-- Type-hint names of `ConnectionInfo.__init__` that no `import` of the
module binds; evaluating the signature raises `NameError` for the first
such name. -/
def connectionInfoUnboundHintNames : List String :=
  connectionInfoHintRootNames.filter (fun n => !(moduleScopeNames.contains n))


/-! Registry lemmas -/

theorem nodupKeys_cons {hd : String × ConnectionInfo} {tl : Registry} :
    NodupKeys (hd :: tl) ↔ hd.1 ∉ keysOf tl ∧ NodupKeys tl := by
  simp [NodupKeys, keysOf]

theorem mem_keysOf {tl : Registry} {k : String} {w : ConnectionInfo}
    (h : (k, w) ∈ tl) : k ∈ keysOf tl :=
  List.mem_map.mpr ⟨(k, w), h, rfl⟩

theorem lookup_eraseKey_self (r : Registry) (k : String) :
    lookupConn (eraseKey r k) k = none := by
  induction r with
  | nil => rfl
  | cons hd tl ih =>
    rcases hd with ⟨k', v⟩
    by_cases h : k' = k
    · simpa [eraseKey, h] using ih
    · simpa [eraseKey, h, lookupConn] using ih

theorem lookup_eraseKey_ne (r : Registry) (k' k : String) (h : k' ≠ k) :
    lookupConn (eraseKey r k') k = lookupConn r k := by
  induction r with
  | nil => rfl
  | cons hd tl ih =>
    rcases hd with ⟨k0, v⟩
    by_cases hh : k0 = k'
    · subst hh
      simp [eraseKey, lookupConn, h, ih]
    · rw [eraseKey, if_neg hh]
      by_cases hk : k0 = k
      · subst hk
        simp [lookupConn]
      · simp [lookupConn, hk, ih]

theorem lookup_setItem_self (r : Registry) (k : String) (v : ConnectionInfo) :
    lookupConn (setItem r k v) k = some v := by
  induction r with
  | nil => simp [setItem, lookupConn]
  | cons hd tl ih =>
    rcases hd with ⟨k0, v0⟩
    by_cases h : k0 = k
    · simp [setItem, h, lookupConn]
    · simp [setItem, h, lookupConn, ih]

theorem lookup_setItem_ne (r : Registry) (k' k : String) (v : ConnectionInfo)
    (h : k' ≠ k) : lookupConn (setItem r k' v) k = lookupConn r k := by
  induction r with
  | nil => simp [setItem, lookupConn, h]
  | cons hd tl ih =>
    rcases hd with ⟨k0, v0⟩
    by_cases hh : k0 = k'
    · subst hh
      simp [setItem, lookupConn, h]
    · rw [setItem, if_neg hh]
      by_cases hk : k0 = k
      · subst hk
        simp [lookupConn]
      · simp [lookupConn, hk, ih]

theorem mem_of_lookup {r : Registry} {k : String} {v : ConnectionInfo}
    (h : lookupConn r k = some v) : (k, v) ∈ r := by
  induction r with
  | nil => simp [lookupConn] at h
  | cons hd tl ih =>
    rcases hd with ⟨k0, v0⟩
    by_cases hh : k0 = k
    · simp [lookupConn, hh] at h
      rw [hh, h]
      exact List.mem_cons_self _ _
    · simp [lookupConn, hh] at h
      exact List.mem_cons_of_mem _ (ih h)

theorem lookup_unique {r : Registry} {k : String} {v w : ConnectionInfo}
    (hnd : NodupKeys r) (hmem : (k, w) ∈ r) (h : lookupConn r k = some v) :
    w = v := by
  induction r with
  | nil => simp at hmem
  | cons hd tl ih =>
    obtain ⟨hni, hnd'⟩ := nodupKeys_cons.mp hnd
    rcases List.mem_cons.mp hmem with heq | htl
    · have hh : hd.1 = k := by rw [← heq]
      simp [lookupConn, hh] at h
      rw [← heq] at h
      exact h
    · by_cases hh : hd.1 = k
      · exact absurd (hh ▸ mem_keysOf htl) hni
      · simp [lookupConn, hh] at h
        exact ih hnd' htl h

theorem lookup_of_mem_nodup {r : Registry} {k : String} {v : ConnectionInfo}
    (hnd : NodupKeys r) (hmem : (k, v) ∈ r) : lookupConn r k = some v := by
  induction r with
  | nil => simp at hmem
  | cons hd tl ih =>
    obtain ⟨hni, hnd'⟩ := nodupKeys_cons.mp hnd
    rcases List.mem_cons.mp hmem with heq | htl
    · have hh : hd.1 = k := by rw [← heq]
      simp [lookupConn, hh, ← heq]
    · by_cases hh : hd.1 = k
      · exact absurd (hh ▸ mem_keysOf htl) hni
      · simp [lookupConn, hh]
        exact ih hnd' htl

theorem mem_of_mem_eraseKey {r : Registry} {k : String}
    {p : String × ConnectionInfo} (h : p ∈ eraseKey r k) : p ∈ r := by
  induction r with
  | nil => simp [eraseKey] at h
  | cons hd tl ih =>
    rcases hd with ⟨k0, v0⟩
    by_cases h0 : k0 = k
    · simp [eraseKey, h0] at h
      exact List.mem_cons_of_mem _ (ih h)
    · rw [eraseKey, if_neg h0] at h
      rcases List.mem_cons.mp h with heq | htl
      · rw [heq]; exact List.mem_cons_self _ _
      · exact List.mem_cons_of_mem _ (ih htl)

theorem nodup_eraseKey {r : Registry} (k : String) (hnd : NodupKeys r) :
    NodupKeys (eraseKey r k) := by
  induction r with
  | nil => exact hnd
  | cons hd tl ih =>
    obtain ⟨hni, hnd'⟩ := nodupKeys_cons.mp hnd
    rcases hd with ⟨k0, v0⟩
    by_cases h : k0 = k
    · simpa [eraseKey, h] using ih hnd'
    · rw [eraseKey, if_neg h]
      refine nodupKeys_cons.mpr ⟨?_, ih hnd'⟩
      intro hk
      rcases List.mem_map.mp hk with ⟨⟨k1, v1⟩, hmem, hfst⟩
      exact hni (hfst ▸ mem_keysOf (mem_of_mem_eraseKey hmem))

theorem mem_keysOf_setItem {r : Registry} {k x : String} {v : ConnectionInfo}
    (h : x ∈ keysOf (setItem r k v)) : x ∈ keysOf r ∨ x = k := by
  induction r with
  | nil =>
    simp [setItem, keysOf] at h
    right; exact h
  | cons hd tl ih =>
    rcases hd with ⟨k0, v0⟩
    by_cases hh : k0 = k
    · simp [setItem, hh, keysOf] at h ⊢
      rcases h with h | h
      · right; exact h
      · left; right; exact h
    · simp [setItem, hh, keysOf] at h ⊢
      rcases h with h | h
      · left; left; exact h
      · rcases ih (by simpa [keysOf] using h) with h' | h'
        · left; right; simpa [keysOf] using h'
        · right; exact h'

theorem nodup_setItem {r : Registry} (k : String) (v : ConnectionInfo)
    (hnd : NodupKeys r) : NodupKeys (setItem r k v) := by
  induction r with
  | nil => simp [setItem, NodupKeys, keysOf]
  | cons hd tl ih =>
    obtain ⟨hni, hnd'⟩ := nodupKeys_cons.mp hnd
    rcases hd with ⟨k0, v0⟩
    by_cases hh : k0 = k
    · rw [setItem, if_pos hh]
      refine nodupKeys_cons.mpr ⟨?_, hnd'⟩
      simpa [← hh] using hni
    · rw [setItem, if_neg hh]
      refine nodupKeys_cons.mpr ⟨?_, ih hnd'⟩
      intro hk
      rcases mem_keysOf_setItem hk with h' | h'
      · exact hni h'
      · exact hh h'

/-! `_terminate_connection_unsafe` lemmas -/

theorem terminate_lookup_self (st : PoolState) (k : String) :
    lookupConn ((terminateConnectionUnsafe st k).2).conns k = none := by
  unfold terminateConnectionUnsafe
  cases h : lookupConn st.conns k with
  | none => simpa using h
  | some ci =>
    by_cases hf : ci.connection.closeFails
    · simp [hf, lookup_eraseKey_self]
    · simp [hf, lookup_eraseKey_self]

theorem terminate_lookup_ne (st : PoolState) (k' k : String) (h : k' ≠ k) :
    lookupConn ((terminateConnectionUnsafe st k').2).conns k = lookupConn st.conns k := by
  unfold terminateConnectionUnsafe
  cases hl : lookupConn st.conns k' with
  | none => simp
  | some ci =>
    by_cases hf : ci.connection.closeFails
    · simp [hf, lookup_eraseKey_ne _ _ _ h]
    · simp [hf, lookup_eraseKey_ne _ _ _ h]

theorem terminate_lookup_none (st : PoolState) (k' k : String)
    (h : lookupConn st.conns k = none) :
    lookupConn ((terminateConnectionUnsafe st k').2).conns k = none := by
  by_cases hk : k' = k
  · rw [hk]; exact terminate_lookup_self st k
  · rw [terminate_lookup_ne st k' k hk]; exact h

theorem terminate_nodup (st : PoolState) (k : String) (hnd : NodupKeys st.conns) :
    NodupKeys ((terminateConnectionUnsafe st k).2).conns := by
  unfold terminateConnectionUnsafe
  cases hl : lookupConn st.conns k with
  | none => simpa using hnd
  | some ci =>
    by_cases hf : ci.connection.closeFails
    · simpa [hf] using nodup_eraseKey k hnd
    · simpa [hf] using nodup_eraseKey k hnd

theorem terminate_stats_frame (st : PoolState) (k : String) :
    ((terminateConnectionUnsafe st k).2).stats.connection_opened
        = st.stats.connection_opened ∧
      ((terminateConnectionUnsafe st k).2).stats.connection_pruned
        = st.stats.connection_pruned := by
  unfold terminateConnectionUnsafe
  cases hl : lookupConn st.conns k with
  | none => simp
  | some ci =>
    by_cases hf : ci.connection.closeFails
    · simp [hf]
    · simp [hf]

/-! `prune_connections` lemmas -/

theorem pruneStep_lookup_ne (now : Int) (st : PoolState)
    (item : String × ConnectionInfo) (k : String) (h : item.1 ≠ k) :
    lookupConn ((pruneStep now st item)).conns k = lookupConn st.conns k := by
  unfold pruneStep
  by_cases he : pruneEligible now item.2
  · simp [he, terminate_lookup_ne _ _ _ h]
  · simp [he]

theorem pruneStep_lookup_none (now : Int) (st : PoolState)
    (item : String × ConnectionInfo) (k : String)
    (h : lookupConn st.conns k = none) :
    lookupConn ((pruneStep now st item)).conns k = none := by
  unfold pruneStep
  by_cases he : pruneEligible now item.2
  · simp only [he, if_true]
    exact terminate_lookup_none _ _ _ h
  · simpa [he] using h

theorem pruneStep_nodup (now : Int) (st : PoolState)
    (item : String × ConnectionInfo) (hnd : NodupKeys st.conns) :
    NodupKeys ((pruneStep now st item)).conns := by
  unfold pruneStep
  by_cases he : pruneEligible now item.2
  · simp only [he, if_true]
    exact terminate_nodup _ item.1 hnd
  · simpa [he] using hnd

theorem pruneFold_lookup_none (now : Int) :
    ∀ (items : List (String × ConnectionInfo)) (st : PoolState) (k : String),
      lookupConn st.conns k = none →
      lookupConn ((items.foldl (pruneStep now) st)).conns k = none := by
  intro items
  induction items with
  | nil => intro st k h; exact h
  | cons it rest ih =>
    intro st k h
    exact ih _ _ (pruneStep_lookup_none now st it k h)

theorem pruneFold_nodup (now : Int) :
    ∀ (items : List (String × ConnectionInfo)) (st : PoolState),
      NodupKeys st.conns →
      NodupKeys ((items.foldl (pruneStep now) st)).conns := by
  intro items
  induction items with
  | nil => intro st h; exact h
  | cons it rest ih =>
    intro st h
    exact ih _ (pruneStep_nodup now st it h)

theorem pruneFold_keep (now : Int) :
    ∀ (items : List (String × ConnectionInfo)) (st : PoolState) (k : String)
      (r : ConnectionInfo),
      lookupConn st.conns k = some r →
      (∀ p ∈ items, p.1 = k → p.2 = r) →
      pruneEligible now r = false →
      lookupConn ((items.foldl (pruneStep now) st)).conns k = some r := by
  intro items
  induction items with
  | nil => intro st k r h _ _; exact h
  | cons it rest ih =>
    intro st k r h hit hne
    by_cases hk : it.1 = k
    · have hval : it.2 = r := hit it (List.mem_cons_self _ _) hk
      have hstep : pruneStep now st it = st := by
        unfold pruneStep
        rw [hval, hne]
        simp
      rw [List.foldl_cons, hstep]
      exact ih st k r h (fun p hp => hit p (List.mem_cons_of_mem _ hp)) hne
    · rw [List.foldl_cons]
      exact ih _ k r (by rw [pruneStep_lookup_ne now st it k hk]; exact h)
        (fun p hp => hit p (List.mem_cons_of_mem _ hp)) hne

theorem pruneFold_remove (now : Int) :
    ∀ (items : List (String × ConnectionInfo)) (st : PoolState) (k : String)
      (r : ConnectionInfo),
      lookupConn st.conns k = some r →
      (∀ p ∈ items, p.1 = k → p.2 = r) →
      (k, r) ∈ items →
      pruneEligible now r = true →
      lookupConn ((items.foldl (pruneStep now) st)).conns k = none := by
  intro items
  induction items with
  | nil => intro st k r _ _ hmem _; simp at hmem
  | cons it rest ih =>
    intro st k r h hit hmem he
    by_cases hk : it.1 = k
    · have hval : it.2 = r := hit it (List.mem_cons_self _ _) hk
      have hstep : lookupConn ((pruneStep now st it)).conns k = none := by
        unfold pruneStep
        rw [hval, he]
        simpa [hk] using terminate_lookup_self _ it.1
      rw [List.foldl_cons]
      exact pruneFold_lookup_none now rest _ k hstep
    · rcases List.mem_cons.mp hmem with heq | htl
      · exact absurd (by rw [← heq] : it.1 = k) hk
      · rw [List.foldl_cons]
        exact ih _ k r (by rw [pruneStep_lookup_ne now st it k hk]; exact h)
          (fun p hp => hit p (List.mem_cons_of_mem _ hp)) htl he

theorem snapshot_unique {st : PoolState} {k : String} {r : ConnectionInfo}
    (hnd : NodupKeys st.conns) (h : lookupConn st.conns k = some r) :
    ∀ p ∈ st.conns, p.1 = k → p.2 = r := by
  intro p hp hk
  have : (k, p.2) ∈ st.conns := by
    have : p = (k, p.2) := by
      cases p; simp_all
    rw [← this]; exact hp
  exact lookup_unique hnd this h

/-- Core behaviour of `prune_connections` on a single record: removed when
strictly past deadline, inactive and not persistent; untouched otherwise. -/
theorem prune_lookup_eq (now : Int) (st : PoolState) (k : String)
    (r : ConnectionInfo) (hnd : NodupKeys st.conns)
    (h : lookupConn st.conns k = some r) :
    lookupConn ((pruneConnections now st)).conns k =
      (if pruneEligible now r then none else some r) := by
  unfold pruneConnections
  by_cases he : pruneEligible now r
  · rw [he]
    simp only [if_true]
    exact pruneFold_remove now st.conns st k r h (snapshot_unique hnd h)
      (mem_of_lookup h) he
  · rw [eq_false_of_ne_true he]
    simp only [Bool.false_eq_true, if_false]
    exact pruneFold_keep now st.conns st k r h (snapshot_unique hnd h)
      (eq_false_of_ne_true he)

theorem prune_lookup_none (now : Int) (st : PoolState) (k : String)
    (h : lookupConn st.conns k = none) :
    lookupConn ((pruneConnections now st)).conns k = none :=
  pruneFold_lookup_none now st.conns st k h

theorem prune_nodup (now : Int) (st : PoolState) (hnd : NodupKeys st.conns) :
    NodupKeys ((pruneConnections now st)).conns :=
  pruneFold_nodup now st.conns st hnd

/-! `evict_lru` lemmas -/

theorem leLA_trans (a b c : String × ConnectionInfo)
    (hab : leLastAccessed a b = true) (hbc : leLastAccessed b c = true) :
    leLastAccessed a c = true := by
  simp [leLastAccessed] at *
  omega

theorem leLA_total (a b : String × ConnectionInfo) :
    (leLastAccessed a b || leLastAccessed b a) = true := by
  simp [leLastAccessed]
  omega

theorem leLA_refl (a : String × ConnectionInfo) : leLastAccessed a a = true := by
  simp [leLastAccessed]

theorem mem_insertByLA {x a : String × ConnectionInfo}
    {l : List (String × ConnectionInfo)} :
    a ∈ insertByLA x l ↔ a = x ∨ a ∈ l := by
  induction l with
  | nil => simp [insertByLA]
  | cons y ys ih =>
    by_cases h : leLastAccessed x y
    · simp [insertByLA, h]
    · simp [insertByLA, h, ih]
      tauto

theorem mem_sortByLA {a : String × ConnectionInfo}
    {l : List (String × ConnectionInfo)} :
    a ∈ sortByLastAccessed l ↔ a ∈ l := by
  induction l with
  | nil => simp [sortByLastAccessed]
  | cons x xs ih =>
    simp [sortByLastAccessed, mem_insertByLA, ih]

theorem insertByLA_pairwise (x : String × ConnectionInfo)
    {l : List (String × ConnectionInfo)}
    (h : l.Pairwise (fun u v => leLastAccessed u v = true)) :
    (insertByLA x l).Pairwise (fun u v => leLastAccessed u v = true) := by
  induction l with
  | nil => simp [insertByLA]
  | cons y ys ih =>
    obtain ⟨hy, hys⟩ := List.pairwise_cons.mp h
    by_cases hle : leLastAccessed x y
    · rw [insertByLA, if_pos hle]
      refine List.pairwise_cons.mpr ⟨?_, h⟩
      intro z hz
      rcases List.mem_cons.mp hz with hzy | hzys
      · rw [hzy]; exact hle
      · exact leLA_trans x y z hle (hy z hzys)
    · rw [insertByLA, if_neg hle]
      have hyx : leLastAccessed y x = true := by
        have htot := leLA_total x y
        simp [Bool.or_eq_true] at htot
        rcases htot with h1 | h1
        · exact absurd h1 hle
        · exact h1
      refine List.pairwise_cons.mpr ⟨?_, ih hys⟩
      intro z hz
      rcases mem_insertByLA.mp hz with hzx | hzys
      · rw [hzx]; exact hyx
      · exact hy z hzys

theorem sortByLA_pairwise (l : List (String × ConnectionInfo)) :
    (sortByLastAccessed l).Pairwise (fun u v => leLastAccessed u v = true) := by
  induction l with
  | nil => simp [sortByLastAccessed]
  | cons x xs ih => exact insertByLA_pairwise x ih

/-- In a sorted list the first element satisfying a predicate is minimal
among all elements satisfying it. -/
theorem find?_min {alpha : Type} (le : alpha → alpha → Bool) (p : alpha → Bool)
    (hrefl : ∀ a, le a a = true) :
    ∀ (l : List alpha) (a : alpha),
      l.Pairwise (fun x y => le x y = true) →
      l.find? p = some a → ∀ b ∈ l, p b = true → le a b = true := by
  intro l
  induction l with
  | nil => intro a _ hfind; simp at hfind
  | cons x xs ih =>
    intro a hpw hfind b hb hpb
    obtain ⟨hx, hxs⟩ := List.pairwise_cons.mp hpw
    cases hpx : p x with
    | true =>
      rw [List.find?_cons_of_pos _ hpx] at hfind
      injection hfind with hax
      subst hax
      rcases List.mem_cons.mp hb with hbx | hbxs
      · rw [hbx]; exact hrefl _
      · exact hx b hbxs
    | false =>
      rw [List.find?_cons_of_neg _ (by simp [hpx])] at hfind
      rcases List.mem_cons.mp hb with hbx | hbxs
      · rw [hbx] at hpb; rw [hpb] at hpx; exact absurd hpx (by simp)
      · exact ih a hxs hfind b hbxs hpb

theorem evict_lookup_none (st : PoolState) (k : String)
    (h : lookupConn st.conns k = none) :
    lookupConn ((evict_lru st).2).conns k = none := by
  unfold evict_lru
  cases hf : (sortByLastAccessed st.conns).find? evictCandidate with
  | none => simp only [hf]; simpa using h
  | some it => simp only [hf]; simpa using terminate_lookup_none st it.1 k h

theorem evict_nodup (st : PoolState) (hnd : NodupKeys st.conns) :
    NodupKeys ((evict_lru st).2).conns := by
  unfold evict_lru
  cases hf : (sortByLastAccessed st.conns).find? evictCandidate with
  | none => simp only [hf]; simpa using hnd
  | some it => simp only [hf]; simpa using terminate_nodup st it.1 hnd

/-- A persistent record is never selected by `evict_lru` and survives it
untouched. -/
theorem evict_persistent_keep (st : PoolState) (k : String) (r : ConnectionInfo)
    (hnd : NodupKeys st.conns) (h : lookupConn st.conns k = some r)
    (hp : r.persistent = true) :
    (evict_lru st).1 ≠ some k ∧
      lookupConn ((evict_lru st).2).conns k = some r := by
  unfold evict_lru
  cases hf : (sortByLastAccessed st.conns).find? evictCandidate with
  | none => simp only [hf]; simpa using h
  | some it =>
    simp only [hf]
    have hcand : evictCandidate it = true := List.find?_some hf
    have hmem : it ∈ st.conns := mem_sortByLA.mp (List.mem_of_find?_eq_some hf)
    have hne : it.1 ≠ k := by
      intro hk
      have : (k, it.2) ∈ st.conns := by
        have : it = (k, it.2) := by cases it; simp_all
        rw [← this]; exact hmem
      have hval : it.2 = r := lookup_unique hnd this h
      simp [evictCandidate, hval, hp] at hcand
    constructor
    · simp only [ne_eq, Option.some.injEq]
      exact fun hk => hne hk
    · simpa using (by rw [terminate_lookup_ne st it.1 k hne]; exact h)

/-! Admission lemmas -/

/-- The pool state carried by an admission outcome. -/
def admStateOf : AdmissionResult → PoolState
  | .ok st => st
  | .full _ st => st
  | .running st => st

theorem admissionLoop_preserves (P : PoolState → Prop)
    (hprune : ∀ now st, P st → P (pruneConnections now st))
    (hevict : ∀ st, P st → P ((evict_lru st).2))
    (m : Nat) (tmo : Option Int) (start : Int) :
    ∀ (ticks : List AdmissionTick) (st : PoolState), P st →
      P (admStateOf (admissionLoop m tmo start ticks st)) := by
  intro ticks
  induction ticks with
  | nil =>
    intro st hP
    rw [admissionLoop]
    by_cases hlen : st.conns.length < m
    · simpa [hlen, admStateOf] using hP
    · simpa [hlen, admStateOf] using hP
  | cons t rest ih =>
    intro st hP
    rw [admissionLoop]
    by_cases hlen : st.conns.length < m
    · simpa [hlen, admStateOf] using hP
    · have hP2 : P ((evict_lru (pruneConnections t.pruneNow st)).2) :=
        hevict _ (hprune _ _ hP)
      cases tmo with
      | none => simpa [hlen] using ih _ hP2
      | some tm =>
        by_cases hchk : t.checkNow - start > tm
        · simpa [hlen, hchk, admStateOf] using hP2
        · simpa [hlen, hchk] using ih _ hP2

theorem admissionLoop_ok_length (m : Nat) (tmo : Option Int) (start : Int) :
    ∀ (ticks : List AdmissionTick) (st st' : PoolState),
      admissionLoop m tmo start ticks st = .ok st' → st'.conns.length < m := by
  intro ticks
  induction ticks with
  | nil =>
    intro st st' h
    rw [admissionLoop] at h
    by_cases hlen : st.conns.length < m
    · simp [hlen] at h
      rw [← h]; exact hlen
    · simp [hlen] at h
  | cons t rest ih =>
    intro st st' h
    rw [admissionLoop] at h
    by_cases hlen : st.conns.length < m
    · simp [hlen] at h
      rw [← h]; exact hlen
    · simp only [hlen, if_false] at h
      cases tmo with
      | none => exact ih _ _ h
      | some tm =>
        by_cases hchk : t.checkNow - start > tm
        · simp [hchk] at h
        · simp only [hchk, if_false] at h
          exact ih _ _ h

theorem admissionLoop_full_payload (m : Nat) (start : Int) :
    ∀ (ticks : List AdmissionTick) (tmo : Option Int) (st : PoolState)
      (e : ConnectionPoolFullError) (st' : PoolState),
      admissionLoop m tmo start ticks st = .full e st' →
      ∃ tm, tmo = some tm ∧ e = ⟨m, tm⟩ ∧
        ∃ t ∈ ticks, t.checkNow - start > tm := by
  intro ticks
  induction ticks with
  | nil =>
    intro tmo st e st' h
    rw [admissionLoop] at h
    by_cases hlen : st.conns.length < m
    · simp [hlen] at h
    · simp [hlen] at h
  | cons t rest ih =>
    intro tmo st e st' h
    rw [admissionLoop] at h
    by_cases hlen : st.conns.length < m
    · simp [hlen] at h
    · simp only [hlen, if_false] at h
      cases tmo with
      | none =>
        obtain ⟨tm, htm, _⟩ := ih _ _ _ _ h
        exact absurd htm (by simp)
      | some tm =>
        by_cases hchk : t.checkNow - start > tm
        · simp [hchk] at h
          refine ⟨tm, rfl, ?_, t, List.mem_cons_self _ _, hchk⟩
          rw [← h.1]
        · simp only [hchk, if_false] at h
          obtain ⟨tm2, htm2, he, t', ht', hgt⟩ := ih _ _ _ _ h
          have heq2 : tm2 = tm := by injection htm2 with hh; exact hh.symm
          subst heq2
          exact ⟨tm2, rfl, he, t', List.mem_cons_of_mem _ ht', hgt⟩

theorem admissionLoop_not_full (m : Nat) (start : Int) (tm : Int) :
    ∀ (ticks : List AdmissionTick) (st : PoolState),
      (∀ t ∈ ticks, t.checkNow - start ≤ tm) →
      ∀ (e : ConnectionPoolFullError) (st' : PoolState),
        admissionLoop m (some tm) start ticks st ≠ .full e st' := by
  intro ticks
  induction ticks with
  | nil =>
    intro st _ e st' h
    rw [admissionLoop] at h
    by_cases hlen : st.conns.length < m
    · simp [hlen] at h
    · simp [hlen] at h
  | cons t rest ih =>
    intro st hbound e st' h
    rw [admissionLoop] at h
    by_cases hlen : st.conns.length < m
    · simp [hlen] at h
    · simp only [hlen, if_false] at h
      have hle : t.checkNow - start ≤ tm := hbound t (List.mem_cons_self _ _)
      have hchk : ¬ t.checkNow - start > tm := not_lt.mpr hle
      simp only [hchk, if_false] at h
      exact ih _ (fun t' ht' => hbound t' (List.mem_cons_of_mem _ ht')) e st' h

theorem admissionLoop_immediate (m : Nat) (tmo : Option Int) (start : Int)
    (ticks : List AdmissionTick) (st : PoolState) (h : st.conns.length < m) :
    admissionLoop m tmo start ticks st = .ok st := by
  cases ticks with
  | nil => rw [admissionLoop]; simp [h]
  | cons t rest => rw [admissionLoop]; simp [h]

theorem admissionLoop_raises (m : Nat) (tm start : Int) (t : AdmissionTick)
    (rest : List AdmissionTick) (st : PoolState)
    (hcap : ¬ st.conns.length < m) (hchk : t.checkNow - start > tm) :
    admissionLoop m (some tm) start (t :: rest) st =
      .full ⟨m, tm⟩ ((evict_lru (pruneConnections t.pruneNow st)).2) := by
  rw [admissionLoop]
  simp [hcap, hchk]

theorem pruneEligible_persistent (now : Int) (r : ConnectionInfo)
    (hp : r.persistent = true) : pruneEligible now r = false := by
  simp [pruneEligible, hp]

theorem prune_persistent_keep (now : Int) (st : PoolState) (k : String)
    (r : ConnectionInfo) (hnd : NodupKeys st.conns)
    (h : lookupConn st.conns k = some r) (hp : r.persistent = true) :
    lookupConn ((pruneConnections now st)).conns k = some r := by
  have := prune_lookup_eq now st k r hnd h
  simpa [pruneEligible_persistent now r hp] using this

/-! Further helper lemmas -/

theorem pruneEligible_iff (now : Int) (r : ConnectionInfo) :
    pruneEligible now r = true ↔
      (r.active = false ∧ r.persistent = false ∧ r.deadline < now) := by
  unfold pruneEligible
  cases ha : r.active <;> cases hp : r.persistent <;> simp [ha, hp]

theorem eraseKey_not_mem {r : Registry} {k : String} (h : k ∉ keysOf r) :
    eraseKey r k = r := by
  induction r with
  | nil => rfl
  | cons hd tl ih =>
    rcases hd with ⟨k0, v0⟩
    simp [keysOf] at h
    rw [eraseKey, if_neg (fun hh => h.1 hh.symm)]
    rw [ih (by simpa [keysOf] using h.2)]

/-- Count of records whose connection closes without raising. -/
def closeOkCount (r : Registry) : Nat :=
  r.countP (fun it => !it.2.connection.closeFails)

/-- Count of records whose connection raises on close. -/
def closeFailCount (r : Registry) : Nat :=
  r.countP (fun it => it.2.connection.closeFails)

theorem closeAllFold :
    ∀ (conns : Registry) (b0 : Bool) (stats : Stats), NodupKeys conns →
      ((keysOf conns).foldl
        (fun acc dbname =>
          let r := terminateConnectionUnsafe acc.2 dbname
          (acc.1 && r.1, r.2))
        (b0, ⟨conns, stats⟩)) =
      (b0 && conns.all (fun it => !it.2.connection.closeFails),
       ⟨[], { stats with
          connection_closed := stats.connection_closed + closeOkCount conns,
          connection_closed_failed :=
            stats.connection_closed_failed + closeFailCount conns }⟩) := by
  intro conns
  induction conns with
  | nil =>
    intro b0 stats _
    simp [keysOf, closeOkCount, closeFailCount]
  | cons hd tl ih =>
    intro b0 stats hnd
    rcases hd with ⟨k, ci⟩
    obtain ⟨hni, hnd'⟩ := nodupKeys_cons.mp hnd
    have hterm : terminateConnectionUnsafe ⟨(k, ci) :: tl, stats⟩ k =
        (!ci.connection.closeFails,
         ⟨tl, if ci.connection.closeFails then
            { stats with connection_closed_failed := stats.connection_closed_failed + 1 }
          else
            { stats with connection_closed := stats.connection_closed + 1 }⟩) := by
      unfold terminateConnectionUnsafe
      have hl : lookupConn ((k, ci) :: tl) k = some ci := by simp [lookupConn]
      rw [hl]
      have her : eraseKey ((k, ci) :: tl) k = tl := by
        rw [eraseKey, if_pos rfl]
        exact eraseKey_not_mem (by simpa [keysOf] using hni)
      cases hfail : ci.connection.closeFails <;> simp [hfail, her]
    rw [show keysOf ((k, ci) :: tl) = k :: keysOf tl from rfl, List.foldl_cons]
    simp only [hterm]
    cases hfail : ci.connection.closeFails with
    | false =>
      rw [ih (b0 && !false) _ hnd']
      simp [closeOkCount, closeFailCount, hfail, Nat.add_assoc, Nat.add_comm 1]
    | true =>
      rw [ih (b0 && !true) _ hnd']
      simp [closeOkCount, closeFailCount, hfail, Nat.add_assoc, Nat.add_comm 1]

/-! Sample states used by witnesses and counterexamples -/

def liveConn (n : Nat) : Conn := ⟨n, false, false, false⟩

def brokenConn (n : Nat) : Conn := ⟨n, false, true, false⟩

/-- An idle, non-persistent record with deadline 5 and last access 0. -/
def cexRecord : ConnectionInfo := ⟨liveConn 1, 5, false, 0, false⟩

def zeroStats : Stats := ⟨0, 0, 0, 0⟩

def cexSt : PoolState := ⟨[("a", cexRecord)], zeroStats⟩

/-! Claim C2 -/

/-- C2 counterexample: with a record that is idle (`busy=false`) and
non-persistent, at a prune instant `now` equal to the record's deadline
(so `now >= expires_at` holds), `prune_connections` does **not** remove the
record — the source removes only when `deadline < now` holds strictly, so
the claim's `now >= expires_at` boundary is wrong. -/
theorem prune_keeps_record_at_exact_deadline :
    cexRecord.active = false ∧ cexRecord.persistent = false ∧
      cexRecord.deadline ≤ (5 : Int) ∧
      lookupConn ((pruneConnections 5 cexSt)).conns "a" = some cexRecord := by
  refine ⟨rfl, rfl, by decide, ?_⟩
  decide

/-- C2 (amended): `prune_connections` removes a record (and closes its
connection) iff `busy=false`, `persistent=false` and `now` is strictly past
its deadline (`expires_at < now`); any record not meeting all three
conditions remains in the registry unchanged. -/
theorem prune_removes_iff_strictly_past_deadline (now : Int) (st : PoolState)
    (k : String) (r : ConnectionInfo) (hnd : NodupKeys st.conns)
    (h : lookupConn st.conns k = some r) :
    lookupConn ((pruneConnections now st)).conns k =
      (if r.active = false ∧ r.persistent = false ∧ r.deadline < now
       then none else some r) := by
  have hpe := prune_lookup_eq now st k r hnd h
  by_cases hc : r.active = false ∧ r.persistent = false ∧ r.deadline < now
  · rw [(pruneEligible_iff now r).mpr hc] at hpe
    simpa [hc] using hpe
  · have hfalse : pruneEligible now r = false := by
      cases hq : pruneEligible now r
      · rfl
      · exact absurd ((pruneEligible_iff now r).mp hq) hc
    rw [hfalse] at hpe
    simpa [hc] using hpe

/-- Witness for C2's amended theorem at a concrete state: at `now = 6`,
strictly past the deadline 5, the idle non-persistent record is removed. -/
theorem prune_removes_iff_strictly_past_deadline_witness :
    NodupKeys cexSt.conns ∧
      lookupConn ((pruneConnections 6 cexSt)).conns "a" =
        (if cexRecord.active = false ∧ cexRecord.persistent = false ∧
            cexRecord.deadline < 6 then none else some cexRecord) :=
  ⟨by decide,
   prune_removes_iff_strictly_past_deadline 6 cexSt "a" cexRecord
     (by decide) (by decide)⟩

def closeAllSt : PoolState :=
  ⟨[("a", ⟨⟨1, false, false, true⟩, 5, true, 0, true⟩),
    ("b", ⟨liveConn 2, 5, false, 0, false⟩)], zeroStats⟩

def evictSt : PoolState :=
  ⟨[("a", ⟨liveConn 1, 5, false, 10, false⟩),
    ("b", ⟨liveConn 2, 5, false, 3, false⟩),
    ("c", ⟨liveConn 3, 5, true, 1, false⟩)], zeroStats⟩

/-! Claim C8 -/

/-- C8: `close_all_connections` attempts to close every tracked record
(busy and persistent ones included — the registry is empty afterwards),
never raises (it is a total function returning a Bool), returns `true` iff
every individual close succeeded, counts each failed close in
`connection_closed_failed`, and touches no other counter. -/
theorem close_all_closes_everything (st : PoolState) (hnd : NodupKeys st.conns) :
    (close_all_connections st).2.conns = [] ∧
      ((close_all_connections st).1 = true ↔
        ∀ p ∈ st.conns, p.2.connection.closeFails = false) ∧
      (close_all_connections st).2.stats.connection_closed
        = st.stats.connection_closed + closeOkCount st.conns ∧
      (close_all_connections st).2.stats.connection_closed_failed
        = st.stats.connection_closed_failed + closeFailCount st.conns ∧
      (close_all_connections st).2.stats.connection_opened
        = st.stats.connection_opened ∧
      (close_all_connections st).2.stats.connection_pruned
        = st.stats.connection_pruned := by
  obtain ⟨conns, stats⟩ := st
  have hfold := closeAllFold conns true stats hnd
  unfold close_all_connections
  simp only at hfold ⊢
  rw [hfold]
  refine ⟨rfl, ?_, rfl, rfl, rfl, rfl⟩
  simp [List.all_eq_true]

/-- Witness for C8 at a concrete two-record state (one record busy and
persistent, whose close fails; one idle): the registry is emptied and the
failed close is counted. -/
theorem close_all_closes_everything_witness :
    NodupKeys closeAllSt.conns ∧
      (close_all_connections closeAllSt).2.conns = [] ∧
      (close_all_connections closeAllSt).2.stats.connection_closed_failed
        = 1 := by
  have hmain := close_all_closes_everything closeAllSt (by decide)
  refine ⟨by decide, hmain.1, ?_⟩
  rw [hmain.2.2.2.1]
  decide

/-! Claim C3 -/

/-- C3: when `evict_lru` returns a key, that key's record was idle
(`busy=false`) and non-persistent, it is removed from the registry, and its
`last_accessed` is minimal among all idle non-persistent records; when it
returns `None` no idle non-persistent record exists and the whole pool
state (registry and stats) is returned unchanged. -/
theorem evict_lru_selects_min_idle_nonpersistent (st : PoolState)
    (hnd : NodupKeys st.conns) :
    (∀ k st', evict_lru st = (some k, st') →
      ∃ ci, lookupConn st.conns k = some ci ∧ ci.active = false ∧
        ci.persistent = false ∧ lookupConn st'.conns k = none ∧
        ∀ k' ci', lookupConn st.conns k' = some ci' → ci'.active = false →
          ci'.persistent = false → ci.last_accessed ≤ ci'.last_accessed) ∧
    (∀ st', evict_lru st = (none, st') → st' = st ∧
      ∀ k ci, lookupConn st.conns k = some ci →
        ci.active = true ∨ ci.persistent = true) := by
  unfold evict_lru
  cases hf : (sortByLastAccessed st.conns).find? evictCandidate with
  | some it =>
    simp only [hf]
    constructor
    · intro k st' heq
      obtain ⟨hk, hst⟩ := Prod.mk.injEq _ _ _ _ ▸ heq
      injection hk with hk
      subst hk
      subst hst
      have hcand : evictCandidate it = true := List.find?_some hf
      have hmem : it ∈ st.conns :=
        mem_sortByLA.mp (List.mem_of_find?_eq_some hf)
      have hit : it = (it.1, it.2) := rfl
      have hlook : lookupConn st.conns it.1 = some it.2 :=
        lookup_of_mem_nodup hnd (hit ▸ hmem)
      obtain ⟨hact, hpers⟩ : it.2.active = false ∧ it.2.persistent = false := by
        simpa [evictCandidate] using hcand
      refine ⟨it.2, hlook, hact, hpers, terminate_lookup_self st it.1, ?_⟩
      intro k' ci' hl' hact' hpers'
      have hmem' : (k', ci') ∈ sortByLastAccessed st.conns :=
        mem_sortByLA.mpr (mem_of_lookup hl')
      have hcand' : evictCandidate (k', ci') = true := by
        simp [evictCandidate, hact', hpers']
      have hsorted : (sortByLastAccessed st.conns).Pairwise
          (fun x y => leLastAccessed x y = true) :=
        sortByLA_pairwise st.conns
      have := find?_min leLastAccessed evictCandidate leLA_refl
        (sortByLastAccessed st.conns) it hsorted hf (k', ci') hmem' hcand'
      simpa [leLastAccessed] using this
    · intro st' heq
      simp at heq
  | none =>
    simp only [hf]
    constructor
    · intro k st' heq
      simp at heq
    · intro st' heq
      obtain ⟨_, hst⟩ := Prod.mk.injEq _ _ _ _ ▸ heq
      refine ⟨hst.symm, ?_⟩
      intro k ci hl
      have hmem : (k, ci) ∈ sortByLastAccessed st.conns :=
        mem_sortByLA.mpr (mem_of_lookup hl)
      have hnc : ¬ evictCandidate (k, ci) = true :=
        List.find?_eq_none.mp hf _ hmem
      simp [evictCandidate] at hnc
      cases ha : ci.active with
      | true => exact Or.inl rfl
      | false => exact Or.inr (hnc ha)

/-- Witness for C3 at a concrete state with two idle records: the one with
the smaller `last_accessed` ("b") is evicted. -/
theorem evict_lru_selects_min_witness :
    NodupKeys evictSt.conns ∧
      lookupConn (((evict_lru evictSt)).2).conns "b" = none := by
  refine ⟨by decide, ?_⟩
  obtain ⟨ci, _, _, _, hnone, _⟩ :=
    (evict_lru_selects_min_idle_nonpersistent evictSt (by decide)).1
      "b" (evict_lru evictSt).2 (by decide)
  exact hnone

/-! Claim C1 (code defect: non-interrupt exceptions skip all cleanup) -/

/-- A record as held during a lease: `active = true`. -/
def busyRecord : ConnectionInfo := ⟨liveConn 7, 100, true, 0, false⟩

def leaseSt : PoolState := ⟨[("a", busyRecord)], zeroStats⟩

/-- C1 (code defect): when the caller's body raises an exception other than
`InterruptedError` (here a `ValueError`), `get_connection`'s scope exit —
a `try/except InterruptedError/else` with no `finally` — matches no
`except` clause and skips the `else` block, so the exception propagates
with the pool state untouched: the leased record is neither marked idle
nor removed, it stays in the registry with `active = true`, reaching none
of the three terminal outcomes the specification requires. -/
theorem scope_exit_on_plain_exception_leaves_record_busy :
    getConnectionScopeExit "a" false (.raised (.valueError "boom")) leaseSt =
      (.propagated (.valueError "boom"), leaseSt) ∧
    lookupConn leaseSt.conns "a" = some busyRecord ∧
    busyRecord.active = true := by
  exact ⟨rfl, by decide, rfl⟩

/-! Claim C9 -/

/-- C9: every call of the public `get_connection` fails before yielding:
evaluating the argument list of its `self._get_connection_raw(...)` call
raises `NameError` for `startup_fn`, a name bound neither in the function
nor at module scope; moreover the `ConnectionInfo` construction in
`_get_connection_raw` omits the required `thread` parameter (a `TypeError`
were it ever reached), and the signature's type hints reference the
unimported module `threading`. -/
theorem get_connection_fails_before_yield :
    getConnectionFirstStep = .error (.nameError "startup_fn") ∧
    connectionInfoMissingArgs = ["thread"] ∧
    connectionInfoUnboundHintNames = ["threading"] := by
  refine ⟨?_, by decide, by decide⟩
  rfl

/-! Claim C7 -/

/-- C7: when the record found for the key (after the entry prune) has a
connection that is neither closed nor broken, `_get_connection_raw` reuses
it: the result is that same connection, no factory call and no startup
hook run (the event list is empty and the stats — `connection_opened`
included — are exactly the post-prune stats), and the record is re-inserted
with a fresh deadline (`deadlineNow + ttl_ms`), fresh `last_accessed`,
`active = true`, and the `persistent` flag it had at creation, whatever
`persistent` value the caller passed. -/
theorem acquire_reuses_healthy_record (maxConns : Option Nat) (env : RawEnv)
    (clock : RawClock) (p : RawParams) (st : PoolState) (ci : ConnectionInfo)
    (h : lookupConn ((pruneConnections clock.pruneEntryNow st)).conns p.dbname
      = some ci)
    (hclosed : ci.connection.closed = false)
    (hbroken : ci.connection.broken = false) :
    getConnectionRaw maxConns env clock p st =
      .ok ci.connection
        ⟨setItem
            (eraseKey ((pruneConnections clock.pruneEntryNow st)).conns p.dbname)
            p.dbname
            ⟨ci.connection, clock.deadlineNow + p.ttl_ms, true,
             clock.lastAccessedNow, ci.persistent⟩,
         ((pruneConnections clock.pruneEntryNow st)).stats⟩
        [] := by
  unfold getConnectionRaw
  simp only [h, hclosed, hbroken, Bool.or_self, Bool.false_eq_true, if_false,
    finishInsert]

/-- A healthy persistent record used by the C7 witness. -/
def healthyRec : ConnectionInfo := ⟨liveConn 4, 100, false, 2, true⟩

def healthySt : PoolState := ⟨[("a", healthyRec)], zeroStats⟩

def reuseClock : RawClock := ⟨0, 0, [], 10, 11⟩

def reuseEnv : RawEnv := ⟨some 5, .ok (liveConn 9), .ok ()⟩

/-- The caller passes `persistent = false`, but the reused record must keep
`persistent = true` from its creation. -/
def reuseParams : RawParams := ⟨"a", 1000, none, true, false⟩

/-- Witness for C7: at a concrete state holding a healthy persistent
record, the acquire returns that connection with no events and the record
refreshed, retaining `persistent = true` against the caller's `false`. -/
theorem acquire_reuses_healthy_record_witness :
    lookupConn ((pruneConnections reuseClock.pruneEntryNow healthySt)).conns
        "a" = some healthyRec ∧
      getConnectionRaw none reuseEnv reuseClock reuseParams healthySt =
        .ok healthyRec.connection
          ⟨setItem
              (eraseKey
                ((pruneConnections reuseClock.pruneEntryNow healthySt)).conns
                "a")
              "a"
              ⟨healthyRec.connection, reuseClock.deadlineNow + 1000, true,
               reuseClock.lastAccessedNow, healthyRec.persistent⟩,
           ((pruneConnections reuseClock.pruneEntryNow healthySt)).stats⟩
          [] :=
  ⟨by decide,
   acquire_reuses_healthy_record none reuseEnv reuseClock reuseParams
     healthySt healthyRec (by decide) (by decide) (by decide)⟩

/-! Claim C6 -/

theorem setItem_length (r : Registry) (k : String) (v : ConnectionInfo) :
    (setItem r k v).length ≤ r.length + 1 := by
  induction r with
  | nil => simp [setItem]
  | cons hd tl ih =>
    rcases hd with ⟨k0, v0⟩
    by_cases h : k0 = k
    · simp [setItem, h]
    · simp [setItem, h]
      omega

theorem openNew_ok_length (M : Nat) (env : RawEnv) (clock : RawClock)
    (p : RawParams) (st : PoolState) (db : Conn) (st' : PoolState)
    (ev : List RawEvent)
    (h : openNewConnection (some M) env clock p st = .ok db st' ev) :
    st'.conns.length ≤ M := by
  unfold openNewConnection at h
  cases hA : admissionPhase (some M) (effectiveTimeout env p.timeout)
      clock.start clock.ticks st with
  | full e st2 => rw [hA] at h; simp at h
  | running st2 => rw [hA] at h; simp at h
  | ok st2 =>
    have hlen : st2.conns.length < M := by
      have : admissionLoop M (effectiveTimeout env p.timeout) clock.start
          clock.ticks st = .ok st2 := by simpa [admissionPhase] using hA
      exact admissionLoop_ok_length M _ _ clock.ticks st st2 this
    rw [hA] at h
    simp only at h
    cases hc : env.connectResult with
    | error e => rw [hc] at h; simp at h
    | ok db2 =>
      rw [hc] at h
      simp only at h
      have hfin : ∀ evs : List RawEvent,
          finishInsert db2 evs p clock
            { st2 with stats := { st2.stats with
                connection_opened := st2.stats.connection_opened + 1 } }
            p.persistent = .ok db st' ev →
          st'.conns.length ≤ M := by
        intro evs hf
        unfold finishInsert at hf
        simp only [RawResult.ok.injEq] at hf
        obtain ⟨_, hst, _⟩ := hf
        rw [← hst]
        simp only
        calc (setItem st2.conns p.dbname _).length
            ≤ st2.conns.length + 1 := setItem_length _ _ _
          _ ≤ M := hlen
      cases hs : p.hasStartupFn with
      | false =>
        rw [hs] at h
        simp only [Bool.false_eq_true, if_false] at h
        exact hfin _ h
      | true =>
        rw [hs] at h
        simp only [if_true] at h
        cases hr : env.startupResult with
        | error e => rw [hr] at h; simp at h
        | ok u => rw [hr] at h; exact hfin _ h

/-- C6: whenever a configured cap `M` is in force and the acquire had to
open a new connection (the record found after the entry prune was absent,
closed or broken — the admission-gated path), a successful return leaves
at most `M` records in the registry. -/
theorem acquire_respects_capacity (M : Nat) (env : RawEnv) (clock : RawClock)
    (p : RawParams) (st : PoolState) (db : Conn) (st' : PoolState)
    (ev : List RawEvent)
    (hstale : staleConn
      (lookupConn ((pruneConnections clock.pruneEntryNow st)).conns p.dbname)
      = true)
    (hok : getConnectionRaw (some M) env clock p st = .ok db st' ev) :
    st'.conns.length ≤ M := by
  unfold getConnectionRaw at hok
  cases hc : lookupConn ((pruneConnections clock.pruneEntryNow st)).conns
      p.dbname with
  | none =>
    simp only [hc] at hok
    exact openNew_ok_length M env clock p _ db st' ev hok
  | some ci =>
    rw [hc] at hstale
    simp only [staleConn] at hstale
    simp only [hc, hstale, eq_self_iff_true, if_true] at hok
    exact openNew_ok_length M env clock p _ db st' ev hok

def emptySt : PoolState := ⟨[], zeroStats⟩

def capParams : RawParams := ⟨"a", 1000, none, false, false⟩

/-- Witness for C6: with cap 1 and an empty registry, the admission-gated
acquire succeeds and leaves exactly one record, within the cap. -/
theorem acquire_respects_capacity_witness :
    staleConn
        (lookupConn ((pruneConnections reuseClock.pruneEntryNow emptySt)).conns
          capParams.dbname) = true ∧
      (rawStateOf
          (getConnectionRaw (some 1) reuseEnv reuseClock capParams
            emptySt)).conns.length ≤ 1 :=
  ⟨by decide,
   acquire_respects_capacity 1 reuseEnv reuseClock capParams emptySt
     (liveConn 9) _ [.factoryCall] (by decide) (by decide)⟩

/-! Claim C4 -/

theorem openNew_full_inv (maxConns : Option Nat) (env : RawEnv)
    (clock : RawClock) (p : RawParams) (st : PoolState)
    (e : ConnectionPoolFullError) (st' : PoolState)
    (h : openNewConnection maxConns env clock p st = .full e st') :
    admissionPhase maxConns (effectiveTimeout env p.timeout) clock.start
      clock.ticks st = .full e st' := by
  unfold openNewConnection at h
  cases hA : admissionPhase maxConns (effectiveTimeout env p.timeout)
      clock.start clock.ticks st with
  | full e2 st2 =>
    rw [hA] at h
    simp only [RawResult.full.injEq] at h
    rw [h.1, h.2]
  | running st2 => rw [hA] at h; simp at h
  | ok st2 =>
    rw [hA] at h
    simp only at h
    cases hc : env.connectResult with
    | error e3 => rw [hc] at h; simp at h
    | ok db2 =>
      rw [hc] at h
      simp only at h
      cases hs : p.hasStartupFn with
      | false =>
        rw [hs] at h
        simp [finishInsert] at h
      | true =>
        rw [hs] at h
        simp only [if_true] at h
        cases hr : env.startupResult with
        | error e3 => rw [hr] at h; simp at h
        | ok u => rw [hr] at h; simp [finishInsert] at h

theorem openNew_running_inv (maxConns : Option Nat) (env : RawEnv)
    (clock : RawClock) (p : RawParams) (st : PoolState) (st' : PoolState)
    (h : openNewConnection maxConns env clock p st = .running st') :
    admissionPhase maxConns (effectiveTimeout env p.timeout) clock.start
      clock.ticks st = .running st' := by
  unfold openNewConnection at h
  cases hA : admissionPhase maxConns (effectiveTimeout env p.timeout)
      clock.start clock.ticks st with
  | full e2 st2 => rw [hA] at h; simp at h
  | running st2 =>
    rw [hA] at h
    simp only [RawResult.running.injEq] at h
    rw [h]
  | ok st2 =>
    rw [hA] at h
    simp only at h
    cases hc : env.connectResult with
    | error e3 => rw [hc] at h; simp at h
    | ok db2 =>
      rw [hc] at h
      simp only at h
      cases hs : p.hasStartupFn with
      | false =>
        rw [hs] at h
        simp [finishInsert] at h
      | true =>
        rw [hs] at h
        simp only [if_true] at h
        cases hr : env.startupResult with
        | error e3 => rw [hr] at h; simp at h
        | ok u => rw [hr] at h; simp [finishInsert] at h

theorem raw_full_inv (maxConns : Option Nat) (env : RawEnv) (clock : RawClock)
    (p : RawParams) (st : PoolState) (e : ConnectionPoolFullError)
    (st' : PoolState)
    (h : getConnectionRaw maxConns env clock p st = .full e st') :
    openNewConnection maxConns env clock p
      ⟨eraseKey ((pruneConnections clock.pruneEntryNow st)).conns p.dbname,
       ((pruneConnections clock.pruneEntryNow st)).stats⟩ = .full e st' := by
  unfold getConnectionRaw at h
  cases hc : lookupConn ((pruneConnections clock.pruneEntryNow st)).conns
      p.dbname with
  | none => simp only [hc] at h; exact h
  | some ci =>
    simp only [hc] at h
    by_cases hbc : (ci.connection.closed || ci.connection.broken) = true
    · simp only [hbc, eq_self_iff_true, if_true] at h
      exact h
    · rw [if_neg hbc] at h
      simp [finishInsert] at h

theorem raw_running_inv (maxConns : Option Nat) (env : RawEnv)
    (clock : RawClock) (p : RawParams) (st : PoolState) (st' : PoolState)
    (h : getConnectionRaw maxConns env clock p st = .running st') :
    openNewConnection maxConns env clock p
      ⟨eraseKey ((pruneConnections clock.pruneEntryNow st)).conns p.dbname,
       ((pruneConnections clock.pruneEntryNow st)).stats⟩ = .running st' := by
  unfold getConnectionRaw at h
  cases hc : lookupConn ((pruneConnections clock.pruneEntryNow st)).conns
      p.dbname with
  | none => simp only [hc] at h; exact h
  | some ci =>
    simp only [hc] at h
    by_cases hbc : (ci.connection.closed || ci.connection.broken) = true
    · simp only [hbc, eq_self_iff_true, if_true] at h
      exact h
    · rw [if_neg hbc] at h
      simp [finishInsert] at h

/-- C4: the admission-controlled acquire fails only with the pool-full
error, and only over deadline: (1) any pool-full outcome implies a cap was
configured and some wait-loop check saw wall-clock time since the start of
the call strictly exceed the effective timeout (the caller's, defaulting to
the configured connection timeout), the error carrying exactly the
configured max and that timeout; (2) while every check is within the
timeout the pool-full error cannot be raised; (3) with no cap configured
the admission phase never raises pool-full and never waits; (4) at any
check reached while still at or above capacity with the elapsed time
strictly over the timeout, the loop raises the pool-full error carrying
the configured max and the timeout used. -/
theorem admission_fails_only_poolfull_on_timeout (maxConns : Option Nat)
    (env : RawEnv) (clock : RawClock) (p : RawParams) (st : PoolState) :
    (∀ e st', getConnectionRaw maxConns env clock p st = .full e st' →
      ∃ m tm, maxConns = some m ∧ effectiveTimeout env p.timeout = some tm ∧
        e.size = m ∧ e.timeout = tm ∧
        ∃ t ∈ clock.ticks, t.checkNow - clock.start > tm) ∧
    (∀ tm, effectiveTimeout env p.timeout = some tm →
      (∀ t ∈ clock.ticks, t.checkNow - clock.start ≤ tm) →
      ∀ e st', getConnectionRaw maxConns env clock p st ≠ .full e st') ∧
    (maxConns = none →
      (∀ e st', getConnectionRaw maxConns env clock p st ≠ .full e st') ∧
      (∀ st', getConnectionRaw maxConns env clock p st ≠ .running st')) ∧
    (∀ (m : Nat) (tm : Int) (t : AdmissionTick) (rest : List AdmissionTick)
      (st0 : PoolState), ¬ st0.conns.length < m →
      t.checkNow - clock.start > tm →
      admissionLoop m (some tm) clock.start (t :: rest) st0 =
        .full ⟨m, tm⟩ ((evict_lru (pruneConnections t.pruneNow st0)).2)) := by
  refine ⟨?_, ?_, ?_, ?_⟩
  · intro e st' h
    have h2 := openNew_full_inv maxConns env clock p _ e st'
      (raw_full_inv maxConns env clock p st e st' h)
    cases hm : maxConns with
    | none => rw [hm] at h2; simp [admissionPhase] at h2
    | some m =>
      rw [hm] at h2
      have h3 : admissionLoop m (effectiveTimeout env p.timeout) clock.start
          clock.ticks
          ⟨eraseKey ((pruneConnections clock.pruneEntryNow st)).conns p.dbname,
           ((pruneConnections clock.pruneEntryNow st)).stats⟩ = .full e st' := by
        simpa [admissionPhase] using h2
      obtain ⟨tm, htm, he, t, ht, hgt⟩ :=
        admissionLoop_full_payload m clock.start clock.ticks _ _ e st' h3
      exact ⟨m, tm, rfl, htm, by rw [he], by rw [he], t, ht, hgt⟩
  · intro tm htm hbound e st' h
    have h2 := openNew_full_inv maxConns env clock p _ e st'
      (raw_full_inv maxConns env clock p st e st' h)
    cases hm : maxConns with
    | none => rw [hm] at h2; simp [admissionPhase] at h2
    | some m =>
      rw [hm] at h2
      rw [htm] at h2
      have h3 : admissionLoop m (some tm) clock.start clock.ticks
          ⟨eraseKey ((pruneConnections clock.pruneEntryNow st)).conns p.dbname,
           ((pruneConnections clock.pruneEntryNow st)).stats⟩
          = .full e st' := by simpa [admissionPhase] using h2
      exact admissionLoop_not_full m clock.start tm clock.ticks _ hbound e st' h3
  · intro hm
    constructor
    · intro e st' h
      have h2 := openNew_full_inv maxConns env clock p _ e st'
        (raw_full_inv maxConns env clock p st e st' h)
      rw [hm] at h2
      simp [admissionPhase] at h2
    · intro st' h
      have h2 := openNew_running_inv maxConns env clock p _ st'
        (raw_running_inv maxConns env clock p st st' h)
      rw [hm] at h2
      simp [admissionPhase] at h2
  · intro m tm t rest st0 hcap hchk
    exact admissionLoop_raises m tm clock.start t rest st0 hcap hchk

/-- A busy persistent record keeping the pool at capacity for the C4
witness: it can be neither pruned nor evicted. -/
def fullSt : PoolState := ⟨[("x", ⟨liveConn 1, 100, true, 0, true⟩)], zeroStats⟩

def fullClock : RawClock := ⟨0, 0, [⟨0, 10⟩], 0, 0⟩

def fullEnv : RawEnv := ⟨some 5, .ok (liveConn 2), .ok ()⟩

def fullParams : RawParams := ⟨"a", 1000, none, false, false⟩

/-- Witness for C4: with cap 1 held by a busy persistent record and the
single check 3 time units after the start (within the default timeout 5),
the acquire cannot produce the pool-full error. -/
theorem admission_fails_only_poolfull_on_timeout_witness :
    getConnectionRaw (some 1) fullEnv ⟨0, 0, [⟨0, 3⟩], 0, 0⟩ fullParams fullSt
      ≠ .full ⟨1, 5⟩ fullSt :=
  ((admission_fails_only_poolfull_on_timeout (some 1) fullEnv
      ⟨0, 0, [⟨0, 3⟩], 0, 0⟩ fullParams fullSt).2.1 5 (by decide) (by decide))
    ⟨1, 5⟩ fullSt

/-! Claim C10 -/

/-- When the record found after the entry prune is absent, closed or
broken, `_get_connection_raw` is exactly the open-new-connection path run
on the popped state. -/
theorem raw_stale_eq_openNew (maxConns : Option Nat) (env : RawEnv)
    (clock : RawClock) (p : RawParams) (st : PoolState)
    (hstale : staleConn
      (lookupConn ((pruneConnections clock.pruneEntryNow st)).conns p.dbname)
      = true) :
    getConnectionRaw maxConns env clock p st =
      openNewConnection maxConns env clock p
        ⟨eraseKey ((pruneConnections clock.pruneEntryNow st)).conns p.dbname,
         ((pruneConnections clock.pruneEntryNow st)).stats⟩ := by
  unfold getConnectionRaw
  cases hl : lookupConn ((pruneConnections clock.pruneEntryNow st)).conns
      p.dbname with
  | none => simp only [hl]
  | some ci =>
    rw [hl] at hstale
    simp only [staleConn] at hstale
    simp only [hl, hstale, eq_self_iff_true, if_true]

theorem admissionPhase_lookup_none (maxConns : Option Nat) (tmo : Option Int)
    (start : Int) (ticks : List AdmissionTick) (st : PoolState) (k : String)
    (h : lookupConn st.conns k = none) :
    ∀ st2, admissionPhase maxConns tmo start ticks st = .ok st2 →
      lookupConn st2.conns k = none := by
  intro st2 hA
  cases maxConns with
  | none =>
    simp [admissionPhase] at hA
    rw [← hA]
    exact h
  | some m =>
    have hpres := admissionLoop_preserves
      (fun s => lookupConn s.conns k = none)
      (fun now s hP => prune_lookup_none now s k hP)
      (fun s hP => evict_lookup_none s k hP) m tmo start ticks st h
    rw [show admissionLoop m tmo start ticks st = .ok st2 from by
      simpa [admissionPhase] using hA] at hpres
    exact hpres

def c10St : PoolState := ⟨[("b", cexRecord)], zeroStats⟩

def c10Env : RawEnv :=
  ⟨some 5, .error (.operationalError "connect failed"), .ok ()⟩

def c10Clock : RawClock := ⟨0, 10, [], 0, 0⟩

def c10Params : RawParams := ⟨"a", 1000, none, false, false⟩

/-- C10 counterexample: acquiring key "a" while the factory fails also
removes the unrelated expired idle record "b" (the entry prune runs first)
and bumps the pruned/closed counters, so "all other registry entries and
counters are unchanged" is false as stated. -/
theorem factory_failure_entry_prune_touches_other_records :
    lookupConn c10St.conns "b" = some cexRecord ∧
      getConnectionRaw none c10Env c10Clock c10Params c10St =
        .err (.operationalError "connect failed") ⟨[], ⟨1, 1, 1, 0⟩⟩
          [.factoryCall] ∧
      lookupConn
          (rawStateOf
            (getConnectionRaw none c10Env c10Clock c10Params c10St)).conns
          "b" = none ∧
      (rawStateOf
          (getConnectionRaw none c10Env c10Clock c10Params
            c10St)).stats.connection_pruned
        ≠ c10St.stats.connection_pruned := by
  decide

/-- C10 (amended): if the factory (or the startup hook) raises during an
acquire that had to open a new connection, the exception propagates and,
relative to the state after the entry prune, the pop of the key and the
admission wait loop: the opened counter was already incremented (before
the factory ran), the popped closed/broken record was not closed and no
close counter was touched on its behalf, no record for the key remains in
the registry, and all other entries and counters are exactly those of that
post-admission state. -/
theorem factory_failure_state (maxConns : Option Nat) (env : RawEnv)
    (clock : RawClock) (p : RawParams) (st : PoolState) (st2 : PoolState)
    (e : PyErr)
    (hstale : staleConn
      (lookupConn ((pruneConnections clock.pruneEntryNow st)).conns p.dbname)
      = true)
    (hadm : admissionPhase maxConns (effectiveTimeout env p.timeout)
      clock.start clock.ticks
      ⟨eraseKey ((pruneConnections clock.pruneEntryNow st)).conns p.dbname,
       ((pruneConnections clock.pruneEntryNow st)).stats⟩ = .ok st2) :
    (env.connectResult = .error e →
      getConnectionRaw maxConns env clock p st =
        .err e
          { st2 with stats := { st2.stats with
              connection_opened := st2.stats.connection_opened + 1 } }
          [.factoryCall]) ∧
    (∀ c, env.connectResult = .ok c → p.hasStartupFn = true →
      env.startupResult = .error e →
      getConnectionRaw maxConns env clock p st =
        .err e
          { st2 with stats := { st2.stats with
              connection_opened := st2.stats.connection_opened + 1 } }
          [.factoryCall, .startupCall]) ∧
    lookupConn st2.conns p.dbname = none := by
  refine ⟨?_, ?_, ?_⟩
  · intro hc
    rw [raw_stale_eq_openNew maxConns env clock p st hstale]
    unfold openNewConnection
    rw [hadm]
    simp only [hc]
  · intro c hc hs hr
    rw [raw_stale_eq_openNew maxConns env clock p st hstale]
    unfold openNewConnection
    rw [hadm]
    simp only [hc, hs, if_true, hr]
  · exact admissionPhase_lookup_none maxConns (effectiveTimeout env p.timeout)
      clock.start clock.ticks _ p.dbname
      (lookup_eraseKey_self _ p.dbname) st2 hadm

/-- Witness for C10's amended theorem at the counterexample's inputs. -/
theorem factory_failure_state_witness :
    getConnectionRaw none c10Env c10Clock c10Params c10St =
      .err (.operationalError "connect failed")
        { conns := ([] : Registry),
          stats := { connection_opened := 1, connection_pruned := 1,
                     connection_closed := 1, connection_closed_failed := 0 } }
        [.factoryCall] :=
  (factory_failure_state none c10Env c10Clock c10Params c10St
      ⟨[], ⟨0, 1, 1, 0⟩⟩ (.operationalError "connect failed")
      (by decide) (by decide)).1 rfl

/-! Claim C5 -/

theorem openNew_persistent_preserved (maxConns : Option Nat) (env : RawEnv)
    (clock : RawClock) (p : RawParams) (st : PoolState) (k : String)
    (r : ConnectionInfo) (hk : p.dbname ≠ k) (hp : r.persistent = true)
    (h : lookupConn st.conns k = some r) (hnd : NodupKeys st.conns) :
    lookupConn
        (rawStateOf (openNewConnection maxConns env clock p st)).conns k
      = some r ∧
    NodupKeys (rawStateOf (openNewConnection maxConns env clock p st)).conns := by
  have hadm : lookupConn (admStateOf (admissionPhase maxConns
        (effectiveTimeout env p.timeout) clock.start clock.ticks st)).conns k
        = some r ∧
      NodupKeys (admStateOf (admissionPhase maxConns
        (effectiveTimeout env p.timeout) clock.start clock.ticks st)).conns := by
    cases maxConns with
    | none => exact ⟨h, hnd⟩
    | some m =>
      exact admissionLoop_preserves
        (fun s => lookupConn s.conns k = some r ∧ NodupKeys s.conns)
        (fun now s hP =>
          ⟨prune_persistent_keep now s k r hP.2 hP.1 hp, prune_nodup now s hP.2⟩)
        (fun s hP =>
          ⟨(evict_persistent_keep s k r hP.2 hP.1 hp).2, evict_nodup s hP.2⟩)
        m _ clock.start clock.ticks st ⟨h, hnd⟩
  unfold openNewConnection
  cases hA : admissionPhase maxConns (effectiveTimeout env p.timeout)
      clock.start clock.ticks st with
  | full e st2 =>
    rw [hA] at hadm
    simpa [rawStateOf] using hadm
  | running st2 =>
    rw [hA] at hadm
    simpa [rawStateOf] using hadm
  | ok st2 =>
    rw [hA] at hadm
    simp only [admStateOf] at hadm
    obtain ⟨h2, hnd2⟩ := hadm
    simp only
    cases hc : env.connectResult with
    | error e =>
      simp only [rawStateOf]
      exact ⟨h2, hnd2⟩
    | ok db2 =>
      cases hs : p.hasStartupFn with
      | true =>
        simp only [hs, if_true]
        cases hr : env.startupResult with
        | error e =>
          simp only [rawStateOf]
          exact ⟨h2, hnd2⟩
        | ok u =>
          simp only [finishInsert, rawStateOf]
          exact ⟨by rw [lookup_setItem_ne _ _ _ _ hk]; exact h2,
            nodup_setItem _ _ hnd2⟩
      | false =>
        simp only [hs, Bool.false_eq_true, if_false, finishInsert, rawStateOf]
        exact ⟨by rw [lookup_setItem_ne _ _ _ _ hk]; exact h2,
          nodup_setItem _ _ hnd2⟩

theorem raw_persistent_preserved (maxConns : Option Nat) (env : RawEnv)
    (clock : RawClock) (p : RawParams) (st : PoolState) (k : String)
    (r : ConnectionInfo) (hk : p.dbname ≠ k) (hp : r.persistent = true)
    (h : lookupConn st.conns k = some r) (hnd : NodupKeys st.conns) :
    lookupConn
        (rawStateOf (getConnectionRaw maxConns env clock p st)).conns k
      = some r ∧
    NodupKeys (rawStateOf (getConnectionRaw maxConns env clock p st)).conns := by
  have hP1 : lookupConn ((pruneConnections clock.pruneEntryNow st)).conns k
      = some r :=
    prune_persistent_keep clock.pruneEntryNow st k r hnd h hp
  have hnd1 : NodupKeys ((pruneConnections clock.pruneEntryNow st)).conns :=
    prune_nodup clock.pruneEntryNow st hnd
  have hP2 : lookupConn
      (eraseKey ((pruneConnections clock.pruneEntryNow st)).conns p.dbname) k
      = some r := by
    rw [lookup_eraseKey_ne _ _ _ hk]
    exact hP1
  have hnd2 : NodupKeys
      (eraseKey ((pruneConnections clock.pruneEntryNow st)).conns p.dbname) :=
    nodup_eraseKey _ hnd1
  unfold getConnectionRaw
  cases hl : lookupConn ((pruneConnections clock.pruneEntryNow st)).conns
      p.dbname with
  | none =>
    simp only [hl]
    exact openNew_persistent_preserved maxConns env clock p _ k r hk hp hP2 hnd2
  | some ci =>
    simp only [hl]
    by_cases hbc : (ci.connection.closed || ci.connection.broken) = true
    · simp only [hbc, eq_self_iff_true, if_true]
      exact openNew_persistent_preserved maxConns env clock p _ k r hk hp hP2 hnd2
    · rw [if_neg hbc]
      simp only [finishInsert, rawStateOf]
      exact ⟨by rw [lookup_setItem_ne _ _ _ _ hk]; exact hP2,
        nodup_setItem _ _ hnd2⟩

/-- The operations of claim C5, applied in sequence to a pool state. -/
inductive PoolOp
  | pruneOp (now : Int)
  | evictOp
  | acquireOp (maxConns : Option Nat) (env : RawEnv) (clock : RawClock)
      (params : RawParams)

def applyOp (st : PoolState) : PoolOp → PoolState
  | .pruneOp now => pruneConnections now st
  | .evictOp => (evict_lru st).2
  | .acquireOp maxConns env clock params =>
    rawStateOf (getConnectionRaw maxConns env clock params st)

def applyOps (ops : List PoolOp) (st : PoolState) : PoolState :=
  ops.foldl applyOp st

theorem applyOps_persistent (k : String) (r : ConnectionInfo)
    (hp : r.persistent = true) :
    ∀ (ops : List PoolOp) (st : PoolState), NodupKeys st.conns →
      lookupConn st.conns k = some r →
      (∀ mc env ck pr, PoolOp.acquireOp mc env ck pr ∈ ops → pr.dbname ≠ k) →
      lookupConn ((applyOps ops st)).conns k = some r ∧
        NodupKeys ((applyOps ops st)).conns := by
  intro ops
  induction ops with
  | nil => intro st hnd h _; exact ⟨h, hnd⟩
  | cons op rest ih =>
    intro st hnd h hops
    have hstep : lookupConn ((applyOp st op)).conns k = some r ∧
        NodupKeys ((applyOp st op)).conns := by
      cases op with
      | pruneOp now =>
        exact ⟨prune_persistent_keep now st k r hnd h hp, prune_nodup now st hnd⟩
      | evictOp =>
        exact ⟨(evict_persistent_keep st k r hnd h hp).2, evict_nodup st hnd⟩
      | acquireOp mc env ck pr =>
        exact raw_persistent_preserved mc env ck pr st k r
          (hops mc env ck pr (List.mem_cons_self _ _)) hp h hnd
    simp only [applyOps, List.foldl_cons]
    exact ih _ hstep.2 hstep.1
      (fun mc env ck pr hm => hops mc env ck pr (List.mem_cons_of_mem _ hm))

/-- C5: a record whose `persistent` flag is true is never removed by
`prune_connections` nor selected/removed by `evict_lru`, across any
sequence of prune, evict and acquire operations (acquires for other keys
— a same-key acquire legitimately refreshes the record itself): the record
is still present, with the very same fields, after the whole sequence, and
at every intermediate state an `evict_lru` can never return its key. -/
theorem persistent_immune_to_prune_and_evict (st : PoolState) (k : String)
    (r : ConnectionInfo) (ops : List PoolOp) (hnd : NodupKeys st.conns)
    (h : lookupConn st.conns k = some r) (hp : r.persistent = true)
    (hops : ∀ mc env ck pr, PoolOp.acquireOp mc env ck pr ∈ ops →
      pr.dbname ≠ k) :
    lookupConn ((applyOps ops st)).conns k = some r ∧
      ∀ st0 : PoolState, NodupKeys st0.conns →
        lookupConn st0.conns k = some r → (evict_lru st0).1 ≠ some k :=
  ⟨(applyOps_persistent k r hp ops st hnd h hops).1,
   fun st0 hnd0 h0 => (evict_persistent_keep st0 k r hnd0 h0 hp).1⟩

/-- The persistent record used by the C5 witness: long past its deadline
and idle, yet immune. -/
def persistRec : ConnectionInfo := ⟨liveConn 5, 0, false, 0, true⟩

def persistSt : PoolState := ⟨[("m", persistRec)], zeroStats⟩

def demoOps : List PoolOp :=
  [.pruneOp 100, .evictOp, .acquireOp none reuseEnv reuseClock capParams]

/-- Witness for C5: after a prune far past the deadline, an eviction
attempt and an acquire of a different key, the persistent record survives
untouched and eviction never names it. -/
theorem persistent_immune_witness :
    lookupConn ((applyOps demoOps persistSt)).conns "m" = some persistRec ∧
      (evict_lru persistSt).1 ≠ some "m" := by
  have hmain := persistent_immune_to_prune_and_evict persistSt "m" persistRec
    demoOps (by decide) (by decide) (by decide)
    (by
      intro mc env ck pr hm
      simp [demoOps] at hm
      rw [hm.2.2.2]
      decide)
  exact ⟨hmain.1, hmain.2 persistSt (by decide) (by decide)⟩

end ConnPool
